import Mathlib

/-!
Shallow embedding of the data-seeding utility (`carga_datos/load_data.py` and
`schemas/product_schema.py`): JSON records are modelled as structures with
optional fields (a missing JSON key is `none`), the database session as an
explicit state record, and the two loaders as folds over the record lists.
SQLAlchemy sessions autoflush pending adds before every query, so `db.add`
of a product is modelled as an immediate append with a storage-assigned id;
`db.flush()` for a category likewise assigns `nextCatId`.  `db.commit` does
not change the modelled state (ids are already assigned and the pure loaders
cannot fail mid-batch); rollback appears only in the orchestrator model.
-/

namespace LoadData

/-- A row of the `categories` table (`CategoryModel`: id, name). -/
structure Category where
  id : Nat
  name : String
  deriving DecidableEq, Repr

/-- A row of the `products` table (`ProductModel`: id, name, price, stock,
category_id).  `name`, `price`, `stock` are `Option` because `load_data.py`
passes `prod_data.get(...)`, which is `None` when the JSON key is absent.
JSON numbers are modelled as rationals (price) and integers (stock). -/
structure Product where
  id : Nat
  name : Option String
  price : Option ℚ
  stock : Option ℤ
  category_id : Nat
  deriving DecidableEq, Repr

/-- The database state: table contents plus the storage's id counters. -/
structure DB where
  categories : List Category
  products : List Product
  nextCatId : Nat
  nextProdId : Nat
  deriving DecidableEq, Repr

/-- A raw record of `categories.json`; only the `name` key is read. -/
structure CatRecord where
  name : Option String
  deriving DecidableEq, Repr

/-- A raw record of `products.json` (`name`, `price`, `stock`, `category`). -/
structure ProdRecord where
  name : Option String
  price : Option ℚ
  stock : Option ℤ
  category : Option String
  deriving DecidableEq, Repr

/-- Python truthiness of `cat_data.get("name")` in `if not name: continue`:
the name is falsy when the key is absent (`None`) or the empty string. -/
def isBlank : Option String → Bool
  | none => true
  | some s => s == ""

/-- Lookup in the `category_map` dict (keys are the non-blank names). -/
def dlookup (m : List (String × Nat)) (k : String) : Option Nat :=
  (m.find? (fun p => p.1 == k)).map Prod.snd

/-- Python dict assignment `category_map[name] = id`: replace the value when
the key is present, otherwise append the pair (insertion order kept). -/
def dinsert (m : List (String × Nat)) (k : String) (v : Nat) : List (String × Nat) :=
  if m.any (fun p => p.1 == k) then m.map (fun p => if p.1 == k then (k, v) else p)
  else m ++ [(k, v)]

/-- Python `category_name in category_map`: the dict's keys are strings
(the non-blank category names), so a `None` category name is never a key. -/
def hasKey (m : List (String × Nat)) (c : Option String) : Bool :=
  match c with
  | none => false
  | some s => m.any (fun p => p.1 == s)

/-- `category_map[category_name]`, evaluated only under `hasKey = true`
(Python would raise `KeyError` otherwise; the loader guards the access). -/
def dget (m : List (String × Nat)) (c : Option String) : Nat :=
  match c with
  | none => 0
  | some s => ((m.find? (fun p => p.1 == s)).map Prod.snd).getD 0

/-- `db.query(CategoryModel).filter(CategoryModel.name == name).first()`. -/
def findCategory (db : DB) (n : String) : Option Category :=
  db.categories.find? (fun c => c.name == n)

/-- `db.query(ProductModel).filter(ProductModel.name == product_name).first()`;
a `None` product name compiles to `name IS NULL`, matching null-named rows. -/
def findProduct (db : DB) (n : Option String) : Option Product :=
  db.products.find? (fun p => p.name == n)

/-- The loop state of `load_categories`. -/
structure CatLoadState where
  db : DB
  category_map : List (String × Nat)
  new_count : Nat
  existing_count : Nat
  deriving DecidableEq, Repr

/-- One iteration of the `for cat_data in categories_data` loop of
`load_categories`: skip blank names; otherwise look up by name, create and
flush (assigning `nextCatId`) when absent, and record `name → id`. -/
def processCategory (s : CatLoadState) (r : CatRecord) : CatLoadState :=
  match r.name with
  | none => s
  | some n =>
    if n == "" then s
    else
      match findCategory s.db n with
      | some c =>
        { s with existing_count := s.existing_count + 1,
                 category_map := dinsert s.category_map n c.id }
      | none =>
        { db := { s.db with categories := s.db.categories ++ [⟨s.db.nextCatId, n⟩],
                            nextCatId := s.db.nextCatId + 1 },
          category_map := dinsert s.category_map n s.db.nextCatId,
          new_count := s.new_count + 1,
          existing_count := s.existing_count }

/-- Result of `load_categories`: the committed database, the returned
`category_map`, the two counters, and whether the missing-file error was
logged. -/
structure CatLoadResult where
  db : DB
  category_map : List (String × Nat)
  new_count : Nat
  existing_count : Nat
  fileError : Bool
  deriving DecidableEq, Repr

/-- `load_categories(db)`: the categories file is `none` when absent, in
which case an error is logged and the empty mapping returned. -/
def load_categories (db : DB) (file : Option (List CatRecord)) : CatLoadResult :=
  match file with
  | none => { db := db, category_map := [], new_count := 0, existing_count := 0,
              fileError := true }
  | some recs =>
    let s := recs.foldl processCategory
      { db := db, category_map := [], new_count := 0, existing_count := 0 }
    { db := s.db, category_map := s.category_map, new_count := s.new_count,
      existing_count := s.existing_count, fileError := false }

/-- A `logger.warning` line of `load_products`, carrying the missing
category value and the product name it reports. -/
structure Warning where
  missingCategory : Option String
  productName : Option String
  deriving DecidableEq, Repr

/-- The loop state of `load_products`. -/
structure ProdLoadState where
  db : DB
  new_count : Nat
  skipped_count : Nat
  warnings : List Warning
  deriving DecidableEq, Repr

/-- One iteration of the `for prod_data in products_data` loop of
`load_products`: skip with a warning when the category is not a key of the
map; skip silently when a product with the same name exists; otherwise stage
a new `ProductModel` built from the raw record fields. -/
def processProduct (category_map : List (String × Nat)) (s : ProdLoadState)
    (r : ProdRecord) : ProdLoadState :=
  if hasKey category_map r.category = false then
    { s with skipped_count := s.skipped_count + 1,
             warnings := s.warnings ++ [⟨r.category, r.name⟩] }
  else
    match findProduct s.db r.name with
    | some _ => { s with skipped_count := s.skipped_count + 1 }
    | none =>
      { s with db := { s.db with
                        products := s.db.products ++
                          [⟨s.db.nextProdId, r.name, r.price, r.stock,
                            dget category_map r.category⟩],
                        nextProdId := s.db.nextProdId + 1 },
               new_count := s.new_count + 1 }

/-- Result of `load_products`. -/
structure ProdLoadResult where
  db : DB
  new_count : Nat
  skipped_count : Nat
  warnings : List Warning
  fileError : Bool
  deriving DecidableEq, Repr

/-- `load_products(db, category_map)`: the products file is `none` when
absent, in which case an error is logged and the database untouched. -/
def load_products (db : DB) (category_map : List (String × Nat))
    (file : Option (List ProdRecord)) : ProdLoadResult :=
  match file with
  | none => { db := db, new_count := 0, skipped_count := 0, warnings := [],
              fileError := true }
  | some recs =>
    let s := recs.foldl (processProduct category_map)
      { db := db, new_count := 0, skipped_count := 0, warnings := [] }
    { db := s.db, new_count := s.new_count, skipped_count := s.skipped_count,
      warnings := s.warnings, fileError := false }

/-- Outcome of the loading phase inside `main`'s `try` block:
`load_categories(db)` followed, only when the returned map is non-empty
(`if category_map:`), by `load_products(db, category_map)`. -/
structure PhaseOut where
  db : DB
  category_map : List (String × Nat)
  cat_new : Nat
  cat_existing : Nat
  catFileError : Bool
  products_ran : Bool
  prod_new : Nat
  prod_skipped : Nat
  warnings : List Warning
  prodFileError : Bool
  deriving DecidableEq, Repr

/-- The body of `main`'s `try` block. -/
def loadPhase (catFile : Option (List CatRecord)) (prodFile : Option (List ProdRecord))
    (db : DB) : PhaseOut :=
  let r := load_categories db catFile
  if r.category_map.isEmpty then
    { db := r.db, category_map := r.category_map, cat_new := r.new_count,
      cat_existing := r.existing_count, catFileError := r.fileError,
      products_ran := false, prod_new := 0, prod_skipped := 0,
      warnings := [], prodFileError := false }
  else
    let p := load_products r.db r.category_map prodFile
    { db := p.db, category_map := r.category_map, cat_new := r.new_count,
      cat_existing := r.existing_count, catFileError := r.fileError,
      products_ran := true, prod_new := p.new_count,
      prod_skipped := p.skipped_count, warnings := p.warnings,
      prodFileError := p.fileError }

/-- Abstract outcome of the loading phase, for `main`'s `try`/`except`:
either it returns normally, or an exception escapes, in which case
`raised committed` carries the session state that survives the rollback
(the work committed before the exception). -/
inductive PhaseResult where
  | ok (o : PhaseOut)
  | raised (committed : DB)
  deriving DecidableEq, Repr

/-- Observable outcome of `main`: process exit code, final database,
whether `db.rollback()` ran, whether the `except` block logged the error,
whether `db.close()` ran (the `finally` block), whether the final
"completed" log line was reached, and the loaders' outputs when the phase
returned normally. -/
structure MainResult where
  exitCode : Nat
  db : DB
  rolledBack : Bool
  exceptionLogged : Bool
  closed : Bool
  completedLogged : Bool
  phase : Option PhaseOut
  deriving DecidableEq, Repr

/-- `main()` with the loading phase abstracted: `sys.exit(1)` when
`check_connection()` fails; otherwise open the session, run the phase inside
`try`, on an exception log it and `db.rollback()`, in `finally` `db.close()`,
and in every connected case reach the final "completed" log line and return
normally (exit code 0). -/
def mainWith (connOk : Bool) (run : DB → PhaseResult) (db : DB) : MainResult :=
  if connOk = false then
    { exitCode := 1, db := db, rolledBack := false, exceptionLogged := false,
      closed := false, completedLogged := false, phase := none }
  else
    match run db with
    | .ok o =>
      { exitCode := 0, db := o.db, rolledBack := false, exceptionLogged := false,
        closed := true, completedLogged := true, phase := some o }
    | .raised d =>
      { exitCode := 0, db := d, rolledBack := true, exceptionLogged := true,
        closed := true, completedLogged := true, phase := none }

/-- `main()` with the concrete loading phase (which, being pure, always
returns normally). -/
def main (connOk : Bool) (catFile : Option (List CatRecord))
    (prodFile : Option (List ProdRecord)) (db : DB) : MainResult :=
  mainWith connOk (fun d => PhaseResult.ok (loadPhase catFile prodFile d)) db

/-- `ProductSchema` stock default (`schemas/product_schema.py`):
`stock: int = Field(default=0, ge=0)` — the validation layer substitutes 0
for an absent stock.  `load_data.py` never calls this layer. -/
def productSchemaStock (stock : Option ℤ) : ℤ :=
  stock.getD 0

/-- `ProductSchema` field validation: name length 1–200, price > 0,
stock ≥ 0 (after the default), category_id required. -/
def productSchemaValid (name : String) (price : ℚ) (stock : Option ℤ) : Bool :=
  decide (1 ≤ name.length) && decide (name.length ≤ 200) && decide (0 < price)
    && decide (0 ≤ productSchemaStock stock)

/-- A key is present in the dictionary. -/
def HasKeyP (m : List (String × Nat)) (k : String) : Prop :=
  ∃ p ∈ m, p.1 = k

/-- Every product's `category_id` is the id of some stored category. -/
def RefInt (db : DB) : Prop :=
  ∀ p ∈ db.products, ∃ c ∈ db.categories, c.id = p.category_id

/-- Every value of the category map is the id of some stored category. -/
def MapRef (m : List (String × Nat)) (db : DB) : Prop :=
  ∀ q ∈ m, ∃ c ∈ db.categories, c.id = q.2

instance (db : DB) : Decidable (RefInt db) := by
  unfold RefInt
  infer_instance

/-! ### Helper lemmas on the dictionary and query primitives -/

theorem find?_append_of_isSome {α : Type} (p : α → Bool) (l t : List α)
    (h : (l.find? p).isSome = true) : (l ++ t).find? p = l.find? p := by
  cases hl : l.find? p with
  | none => rw [hl] at h; simp at h
  | some a => simp [List.find?_append, hl]

theorem findCategory_isSome_iff (db : DB) (n : String) :
    (findCategory db n).isSome = true ↔ ∃ c ∈ db.categories, c.name = n := by
  unfold findCategory
  rw [List.find?_isSome]
  simp

theorem findProduct_isSome_iff (db : DB) (n : Option String) :
    (findProduct db n).isSome = true ↔ ∃ p ∈ db.products, p.name = n := by
  unfold findProduct
  rw [List.find?_isSome]
  simp

theorem hasKey_some_iff (m : List (String × Nat)) (k : String) :
    hasKey m (some k) = true ↔ HasKeyP m k := by
  unfold hasKey HasKeyP
  rw [List.any_eq_true]
  simp

theorem hasKey_none (m : List (String × Nat)) : hasKey m none = false := rfl

theorem dinsert_keys (m : List (String × Nat)) (k : String) (v : Nat) (k0 : String) :
    HasKeyP (dinsert m k v) k0 ↔ k0 = k ∨ HasKeyP m k0 := by
  unfold dinsert
  split
  · next hany =>
    unfold HasKeyP
    constructor
    · rintro ⟨p, hp, rfl⟩
      rcases List.mem_map.1 hp with ⟨q, hq, hfq⟩
      by_cases hqk : q.1 = k
      · simp [hqk] at hfq
        subst hfq
        exact Or.inl rfl
      · simp [hqk] at hfq
        subst hfq
        exact Or.inr ⟨q, hq, rfl⟩
    · rintro (rfl | ⟨q, hq, rfl⟩)
      · rcases List.any_eq_true.1 hany with ⟨q, hq, hqk⟩
        simp at hqk
        refine ⟨(k0, v), List.mem_map.2 ⟨q, hq, ?_⟩, rfl⟩
        simp [hqk]
      · by_cases hqk : q.1 = k
        · refine ⟨(k, v), List.mem_map.2 ⟨q, hq, ?_⟩, hqk.symm⟩
          simp [hqk]
        · refine ⟨q, List.mem_map.2 ⟨q, hq, ?_⟩, rfl⟩
          simp [hqk]
  · unfold HasKeyP
    constructor
    · rintro ⟨p, hp, rfl⟩
      rcases List.mem_append.1 hp with hp | hp
      · exact Or.inr ⟨p, hp, rfl⟩
      · simp at hp
        subst hp
        exact Or.inl rfl
    · rintro (rfl | ⟨q, hq, rfl⟩)
      · exact ⟨(k0, v), List.mem_append.2 (Or.inr (by simp)), rfl⟩
      · exact ⟨q, List.mem_append.2 (Or.inl hq), rfl⟩

theorem find?_map_replace (t : List (String × Nat)) (k : String) (v : Nat)
    (hany : (t.any fun p => p.1 == k) = true) :
    (t.map (fun p => if p.1 == k then (k, v) else p)).find? (fun p => p.1 == k)
      = some (k, v) := by
  induction t with
  | nil => simp at hany
  | cons a t ih =>
    by_cases hak : a.1 = k
    · simp [List.find?, hak]
    · have hany2 : (t.any fun p => p.1 == k) = true := by
        simpa [List.any_cons, hak] using hany
      have hc : (a.1 == k) = false := beq_eq_false_iff_ne.2 hak
      rw [List.map_cons]
      simp only [hc, Bool.false_eq_true, if_false]
      rw [List.find?_cons_of_neg _ (by simp [hak]), ih hany2]

theorem dlookup_dinsert (m : List (String × Nat)) (k : String) (v : Nat) :
    dlookup (dinsert m k v) k = some v := by
  unfold dinsert
  split
  · next hany =>
    unfold dlookup
    rw [find?_map_replace m k v hany]
    rfl
  · next hany =>
    have hnone : m.find? (fun p => p.1 == k) = none := by
      rw [List.find?_eq_none]
      intro x hx hpx
      exact hany (List.any_eq_true.2 ⟨x, hx, hpx⟩)
    unfold dlookup
    rw [List.find?_append, hnone]
    simp [List.find?]

theorem map_eq_nil_of_no_keys (m : List (String × Nat))
    (h : ∀ k, ¬ HasKeyP m k) : m = [] := by
  cases m with
  | nil => rfl
  | cons a t => exact absurd ⟨a, by simp, rfl⟩ (h a.1)

/-! ### Case analysis of the `load_categories` loop body -/

theorem findCategory_some (db : DB) (n : String) (c : Category)
    (h : findCategory db n = some c) : c ∈ db.categories ∧ c.name = n := by
  unfold findCategory at h
  exact ⟨List.mem_of_find?_eq_some h, by simpa using List.find?_some h⟩

theorem findProduct_some (db : DB) (n : Option String) (p : Product)
    (h : findProduct db n = some p) : p ∈ db.products ∧ p.name = n := by
  unfold findProduct at h
  exact ⟨List.mem_of_find?_eq_some h, by simpa using List.find?_some h⟩

theorem processCategory_blank (s : CatLoadState) (r : CatRecord)
    (h : isBlank r.name = true) : processCategory s r = s := by
  unfold processCategory
  cases hn : r.name with
  | none => rfl
  | some n =>
    rw [hn] at h
    simp only [isBlank] at h
    simp [h]

theorem processCategory_found (s : CatLoadState) (r : CatRecord) (n : String)
    (c : Category) (hn : r.name = some n) (h0 : n ≠ "")
    (hc : findCategory s.db n = some c) :
    processCategory s r =
      { s with existing_count := s.existing_count + 1,
               category_map := dinsert s.category_map n c.id } := by
  unfold processCategory
  rw [hn]
  simp [h0, hc]

theorem processCategory_create (s : CatLoadState) (r : CatRecord) (n : String)
    (hn : r.name = some n) (h0 : n ≠ "") (hc : findCategory s.db n = none) :
    processCategory s r =
      { db := { s.db with categories := s.db.categories ++ [⟨s.db.nextCatId, n⟩],
                          nextCatId := s.db.nextCatId + 1 },
        category_map := dinsert s.category_map n s.db.nextCatId,
        new_count := s.new_count + 1,
        existing_count := s.existing_count } := by
  unfold processCategory
  rw [hn]
  simp [h0, hc]

theorem processCategory_db_shape (s : CatLoadState) (r : CatRecord) :
    (processCategory s r).db.products = s.db.products ∧
      (processCategory s r).db.nextProdId = s.db.nextProdId ∧
      ∀ c ∈ s.db.categories, c ∈ (processCategory s r).db.categories := by
  by_cases hb : isBlank r.name = true
  · rw [processCategory_blank s r hb]
    exact ⟨rfl, rfl, fun c hc => hc⟩
  · cases hn : r.name with
    | none => exact absurd (by rw [hn]; rfl) hb
    | some n =>
      have h0 : n ≠ "" := fun h => hb (by simp [hn, h, isBlank])
      cases hc : findCategory s.db n with
      | some c =>
        rw [processCategory_found s r n c hn h0 hc]
        exact ⟨rfl, rfl, fun c hc => hc⟩
      | none =>
        rw [processCategory_create s r n hn h0 hc]
        exact ⟨rfl, rfl, fun c hc => List.mem_append.2 (Or.inl hc)⟩

theorem catFold_products (recs : List CatRecord) :
    ∀ s : CatLoadState,
      (recs.foldl processCategory s).db.products = s.db.products ∧
        (recs.foldl processCategory s).db.nextProdId = s.db.nextProdId := by
  induction recs with
  | nil => exact fun s => ⟨rfl, rfl⟩
  | cons a t ih =>
    intro s
    have hstep := processCategory_db_shape s a
    have htail := ih (processCategory s a)
    exact ⟨htail.1.trans hstep.1, htail.2.trans hstep.2.1⟩

theorem catFold_mem_categories (recs : List CatRecord) :
    ∀ (s : CatLoadState) (c : Category), c ∈ s.db.categories →
      c ∈ (recs.foldl processCategory s).db.categories := by
  induction recs with
  | nil => exact fun s c hc => hc
  | cons a t ih =>
    intro s c hc
    exact ih (processCategory s a) c ((processCategory_db_shape s a).2.2 c hc)

theorem catFold_name_present (recs : List CatRecord) :
    ∀ (s : CatLoadState) (r : CatRecord), r ∈ recs →
      ∀ n, r.name = some n → n ≠ "" →
        ∃ c ∈ (recs.foldl processCategory s).db.categories, c.name = n := by
  induction recs with
  | nil => intro s r hr; simp at hr
  | cons a t ih =>
    intro s r hr n hn h0
    rcases List.mem_cons.1 hr with rfl | hr
    · have hpresent : ∃ c ∈ (processCategory s r).db.categories, c.name = n := by
        cases hc : findCategory s.db n with
        | some c =>
          rw [processCategory_found s r n c hn h0 hc]
          exact ⟨c, (findCategory_some s.db n c hc).1, (findCategory_some s.db n c hc).2⟩
        | none =>
          rw [processCategory_create s r n hn h0 hc]
          exact ⟨⟨s.db.nextCatId, n⟩, List.mem_append.2 (Or.inr (by simp)), rfl⟩
      rcases hpresent with ⟨c, hcm, hcn⟩
      exact ⟨c, catFold_mem_categories t (processCategory s r) c hcm, hcn⟩
    · exact ih (processCategory s a) r hr n hn h0

theorem processCategory_map_named (s : CatLoadState) (r : CatRecord) (n : String)
    (hn : r.name = some n) (h0 : n ≠ "") :
    ∃ v, (processCategory s r).category_map = dinsert s.category_map n v := by
  cases hfc : findCategory s.db n with
  | some c => exact ⟨c.id, by rw [processCategory_found s r n c hn h0 hfc]⟩
  | none => exact ⟨s.db.nextCatId, by rw [processCategory_create s r n hn h0 hfc]⟩

theorem catFold_all_blank (recs : List CatRecord) :
    ∀ s : CatLoadState, (∀ r ∈ recs, isBlank r.name = true) →
      recs.foldl processCategory s = s := by
  induction recs with
  | nil => intro s _; rfl
  | cons a t ih =>
    intro s h
    rw [List.foldl_cons, processCategory_blank s a (h a (by simp))]
    exact ih s (fun r hr => h r (List.mem_cons_of_mem a hr))

theorem catFold_all_existing (recs : List CatRecord) :
    ∀ s : CatLoadState,
      (∀ r ∈ recs, ∀ n, r.name = some n → n ≠ "" →
        ∃ c ∈ s.db.categories, c.name = n) →
      (recs.foldl processCategory s).db = s.db ∧
        (recs.foldl processCategory s).new_count = s.new_count ∧
        (recs.foldl processCategory s).existing_count =
          s.existing_count + (recs.filter (fun r => !isBlank r.name)).length := by
  induction recs with
  | nil => intro s _; exact ⟨rfl, rfl, by simp⟩
  | cons a t ih =>
    intro s h
    by_cases hb : isBlank a.name = true
    · rw [List.foldl_cons, processCategory_blank s a hb]
      have ht := ih s (fun r hr => h r (List.mem_cons_of_mem a hr))
      refine ⟨ht.1, ht.2.1, ?_⟩
      rw [ht.2.2]
      simp [List.filter_cons, hb]
    · cases hn : a.name with
      | none => exact absurd (by rw [hn]; rfl) hb
      | some n =>
        have h0 : n ≠ "" := fun he => hb (by simp [hn, he, isBlank])
        rcases h a (by simp) n hn h0 with ⟨c, hcm, hcn⟩
        have hsome : (findCategory s.db n).isSome = true :=
          (findCategory_isSome_iff s.db n).2 ⟨c, hcm, hcn⟩
        cases hfc : findCategory s.db n with
        | none => rw [hfc] at hsome; simp at hsome
        | some c0 =>
          have hstep := processCategory_found s a n c0 hn h0 hfc
          have hdb : (processCategory s a).db = s.db := by rw [hstep]
          have hnew : (processCategory s a).new_count = s.new_count := by rw [hstep]
          have hex : (processCategory s a).existing_count = s.existing_count + 1 := by
            rw [hstep]
          have hlen : ((a :: t).filter (fun r => !isBlank r.name)).length
              = (t.filter (fun r => !isBlank r.name)).length + 1 := by
            simp [List.filter_cons, hb]
          have ht := ih (processCategory s a) (fun r hr n2 hn2 h02 => by
            rw [hdb]; exact h r (List.mem_cons_of_mem a hr) n2 hn2 h02)
          rw [List.foldl_cons]
          refine ⟨ht.1.trans hdb, ht.2.1.trans hnew, ?_⟩
          rw [ht.2.2, hex, hlen]
          omega

theorem catFold_keys (recs : List CatRecord) :
    ∀ (s : CatLoadState) (k : String),
      HasKeyP (recs.foldl processCategory s).category_map k ↔
        HasKeyP s.category_map k ∨ ∃ r ∈ recs, r.name = some k ∧ k ≠ "" := by
  induction recs with
  | nil => intro s k; simp
  | cons a t ih =>
    intro s k
    by_cases hb : isBlank a.name = true
    · rw [List.foldl_cons, processCategory_blank s a hb, ih]
      constructor
      · rintro (hk | ⟨r, hr, hname, hne⟩)
        · exact Or.inl hk
        · exact Or.inr ⟨r, List.mem_cons_of_mem a hr, hname, hne⟩
      · rintro (hk | ⟨r, hr, hname, hne⟩)
        · exact Or.inl hk
        · rcases List.mem_cons.1 hr with rfl | hr
          · exact absurd hb (by simp [hname, isBlank, hne])
          · exact Or.inr ⟨r, hr, hname, hne⟩
    · cases hn : a.name with
      | none => exact absurd (by rw [hn]; rfl) hb
      | some n =>
        have h0 : n ≠ "" := fun he => hb (by simp [hn, he, isBlank])
        rcases processCategory_map_named s a n hn h0 with ⟨v, hmap⟩
        rw [List.foldl_cons, ih (processCategory s a) k, hmap, dinsert_keys]
        constructor
        · rintro ((rfl | hk) | ⟨r, hr, hname, hne⟩)
          · exact Or.inr ⟨a, by simp, hn, h0⟩
          · exact Or.inl hk
          · exact Or.inr ⟨r, List.mem_cons_of_mem a hr, hname, hne⟩
        · rintro (hk | ⟨r, hr, hname, hne⟩)
          · exact Or.inl (Or.inr hk)
          · rcases List.mem_cons.1 hr with rfl | hr
            · rw [hn] at hname
              exact Or.inl (Or.inl (Option.some_injective _ hname).symm)
            · exact Or.inr ⟨r, hr, hname, hne⟩

theorem catFold_map_nil_iff (recs : List CatRecord) (db : DB) :
    (recs.foldl processCategory ⟨db, [], 0, 0⟩).category_map = [] ↔
      ∀ r ∈ recs, isBlank r.name = true := by
  constructor
  · intro hnil r hr
    by_contra hb
    cases hn : r.name with
    | none => exact hb (by rw [hn]; rfl)
    | some n =>
      have h0 : n ≠ "" := fun he => hb (by simp [hn, he, isBlank])
      have hk : HasKeyP (recs.foldl processCategory ⟨db, [], 0, 0⟩).category_map n :=
        (catFold_keys recs ⟨db, [], 0, 0⟩ n).2 (Or.inr ⟨r, hr, hn, h0⟩)
      rw [hnil] at hk
      rcases hk with ⟨p, hp, _⟩
      simp at hp
  · intro h
    rw [catFold_all_blank recs _ h]

theorem hasKey_congr (m1 m2 : List (String × Nat))
    (h : ∀ k, HasKeyP m1 k ↔ HasKeyP m2 k) (c : Option String) :
    hasKey m1 c = hasKey m2 c := by
  cases c with
  | none => rfl
  | some k =>
    by_cases hk : HasKeyP m2 k
    · rw [(hasKey_some_iff m1 k).2 ((h k).2 hk), (hasKey_some_iff m2 k).2 hk]
    · have h1 : hasKey m1 (some k) = false := by
        cases hb : hasKey m1 (some k) with
        | false => rfl
        | true => exact absurd ((h k).1 ((hasKey_some_iff m1 k).1 hb)) hk
      have h2 : hasKey m2 (some k) = false := by
        cases hb : hasKey m2 (some k) with
        | false => rfl
        | true => exact absurd ((hasKey_some_iff m2 k).1 hb) hk
      rw [h1, h2]

/-! ### Case analysis of the `load_products` loop body -/

theorem processProduct_skip_missing (m : List (String × Nat)) (s : ProdLoadState)
    (r : ProdRecord) (h : hasKey m r.category = false) :
    processProduct m s r =
      { s with skipped_count := s.skipped_count + 1,
               warnings := s.warnings ++ [⟨r.category, r.name⟩] } := by
  unfold processProduct
  simp [h]

theorem processProduct_skip_existing (m : List (String × Nat)) (s : ProdLoadState)
    (r : ProdRecord) (p : Product) (hk : hasKey m r.category = true)
    (hp : findProduct s.db r.name = some p) :
    processProduct m s r = { s with skipped_count := s.skipped_count + 1 } := by
  unfold processProduct
  simp [hk, hp]

theorem processProduct_insert (m : List (String × Nat)) (s : ProdLoadState)
    (r : ProdRecord) (hk : hasKey m r.category = true)
    (hp : findProduct s.db r.name = none) :
    processProduct m s r =
      { s with db := { s.db with
                        products := s.db.products ++
                          [⟨s.db.nextProdId, r.name, r.price, r.stock, dget m r.category⟩],
                        nextProdId := s.db.nextProdId + 1 },
               new_count := s.new_count + 1 } := by
  unfold processProduct
  simp [hk, hp]

theorem processProduct_db_shape (m : List (String × Nat)) (s : ProdLoadState)
    (r : ProdRecord) :
    (processProduct m s r).db.categories = s.db.categories ∧
      (processProduct m s r).db.nextCatId = s.db.nextCatId ∧
      ∀ p ∈ s.db.products, p ∈ (processProduct m s r).db.products := by
  cases hk : hasKey m r.category with
  | false =>
    rw [processProduct_skip_missing m s r hk]
    exact ⟨rfl, rfl, fun p hp => hp⟩
  | true =>
    cases hp : findProduct s.db r.name with
    | some q =>
      rw [processProduct_skip_existing m s r q hk hp]
      exact ⟨rfl, rfl, fun p hp => hp⟩
    | none =>
      rw [processProduct_insert m s r hk hp]
      exact ⟨rfl, rfl, fun p hp => List.mem_append.2 (Or.inl hp)⟩

theorem prodFold_categories (m : List (String × Nat)) (recs : List ProdRecord) :
    ∀ s : ProdLoadState,
      (recs.foldl (processProduct m) s).db.categories = s.db.categories ∧
        (recs.foldl (processProduct m) s).db.nextCatId = s.db.nextCatId := by
  induction recs with
  | nil => exact fun s => ⟨rfl, rfl⟩
  | cons a t ih =>
    intro s
    have hstep := processProduct_db_shape m s a
    have ht := ih (processProduct m s a)
    exact ⟨ht.1.trans hstep.1, ht.2.trans hstep.2.1⟩

theorem prodFold_mem_products (m : List (String × Nat)) (recs : List ProdRecord) :
    ∀ (s : ProdLoadState) (p : Product), p ∈ s.db.products →
      p ∈ (recs.foldl (processProduct m) s).db.products := by
  induction recs with
  | nil => exact fun s p hp => hp
  | cons a t ih =>
    intro s p hp
    exact ih (processProduct m s a) p ((processProduct_db_shape m s a).2.2 p hp)

theorem prodFold_name_present (m : List (String × Nat)) (recs : List ProdRecord) :
    ∀ (s : ProdLoadState) (r : ProdRecord), r ∈ recs → hasKey m r.category = true →
      ∃ p ∈ (recs.foldl (processProduct m) s).db.products, p.name = r.name := by
  induction recs with
  | nil => intro s r hr; simp at hr
  | cons a t ih =>
    intro s r hr hk
    rcases List.mem_cons.1 hr with rfl | hr
    · have hpres : ∃ p ∈ (processProduct m s r).db.products, p.name = r.name := by
        cases hp : findProduct s.db r.name with
        | some p =>
          rw [processProduct_skip_existing m s r p hk hp]
          exact ⟨p, (findProduct_some s.db r.name p hp).1,
            (findProduct_some s.db r.name p hp).2⟩
        | none =>
          rw [processProduct_insert m s r hk hp]
          exact ⟨⟨s.db.nextProdId, r.name, r.price, r.stock, dget m r.category⟩,
            List.mem_append.2 (Or.inr (by simp)), rfl⟩
      rcases hpres with ⟨p, hpm, hpn⟩
      exact ⟨p, prodFold_mem_products m t (processProduct m s r) p hpm, hpn⟩
    · exact ih (processProduct m s a) r hr hk

theorem prodFold_all_skip (m : List (String × Nat)) (recs : List ProdRecord) :
    ∀ s : ProdLoadState,
      (∀ r ∈ recs, hasKey m r.category = false ∨
        ∃ p ∈ s.db.products, p.name = r.name) →
      (recs.foldl (processProduct m) s).db = s.db ∧
        (recs.foldl (processProduct m) s).new_count = s.new_count ∧
        (recs.foldl (processProduct m) s).skipped_count =
          s.skipped_count + recs.length := by
  induction recs with
  | nil => intro s _; exact ⟨rfl, rfl, by simp⟩
  | cons a t ih =>
    intro s h
    cases hk : hasKey m a.category with
    | false =>
      have hstep := processProduct_skip_missing m s a hk
      have hdb : (processProduct m s a).db = s.db := by rw [hstep]
      have hnew : (processProduct m s a).new_count = s.new_count := by rw [hstep]
      have hsk : (processProduct m s a).skipped_count = s.skipped_count + 1 := by
        rw [hstep]
      have ht := ih (processProduct m s a) (fun r hr => by
        rw [hdb]; exact h r (List.mem_cons_of_mem a hr))
      rw [List.foldl_cons]
      refine ⟨ht.1.trans hdb, ht.2.1.trans hnew, ?_⟩
      rw [ht.2.2, hsk, List.length_cons]
      omega
    | true =>
      rcases h a (by simp) with hkf | ⟨p, hpm, hpn⟩
      · rw [hk] at hkf
        exact absurd hkf (by simp)
      · have hsome : (findProduct s.db a.name).isSome = true :=
          (findProduct_isSome_iff s.db a.name).2 ⟨p, hpm, hpn⟩
        cases hp : findProduct s.db a.name with
        | none => rw [hp] at hsome; simp at hsome
        | some q =>
          have hstep := processProduct_skip_existing m s a q hk hp
          have hdb : (processProduct m s a).db = s.db := by rw [hstep]
          have hnew : (processProduct m s a).new_count = s.new_count := by rw [hstep]
          have hsk : (processProduct m s a).skipped_count = s.skipped_count + 1 := by
            rw [hstep]
          have ht := ih (processProduct m s a) (fun r hr => by
            rw [hdb]; exact h r (List.mem_cons_of_mem a hr))
          rw [List.foldl_cons]
          refine ⟨ht.1.trans hdb, ht.2.1.trans hnew, ?_⟩
          rw [ht.2.2, hsk, List.length_cons]
          omega

/-! ### Referential integrity invariants -/

theorem dinsert_mem (m : List (String × Nat)) (k : String) (v : Nat) :
    ∀ q ∈ dinsert m k v, q = (k, v) ∨ q ∈ m := by
  unfold dinsert
  split
  · intro q hq
    rcases List.mem_map.1 hq with ⟨p, hp, hfp⟩
    by_cases hpk : p.1 = k
    · simp only [hpk, beq_self_eq_true, if_true] at hfp
      exact Or.inl hfp.symm
    · have hc : (p.1 == k) = false := beq_eq_false_iff_ne.2 hpk
      simp only [hc, Bool.false_eq_true, if_false] at hfp
      exact Or.inr (hfp ▸ hp)
  · intro q hq
    rcases List.mem_append.1 hq with h | h
    · exact Or.inr h
    · simp at h
      exact Or.inl h

theorem dget_mem (m : List (String × Nat)) (c : String)
    (h : hasKey m (some c) = true) : ∃ q ∈ m, dget m (some c) = q.2 := by
  have hsome : (m.find? (fun p => p.1 == c)).isSome = true := by
    rw [List.find?_isSome]
    rcases (hasKey_some_iff m c).1 h with ⟨q, hq, hq1⟩
    exact ⟨q, hq, by simp [hq1]⟩
  cases hf : m.find? (fun p => p.1 == c) with
  | none => rw [hf] at hsome; simp at hsome
  | some q => exact ⟨q, List.mem_of_find?_eq_some hf, by simp [dget, hf]⟩

theorem processCategory_mapref (s : CatLoadState) (r : CatRecord)
    (h : MapRef s.category_map s.db) :
    MapRef (processCategory s r).category_map (processCategory s r).db := by
  by_cases hb : isBlank r.name = true
  · rw [processCategory_blank s r hb]
    exact h
  · cases hn : r.name with
    | none => exact absurd (by rw [hn]; rfl) hb
    | some n =>
      have h0 : n ≠ "" := fun he => hb (by simp [hn, he, isBlank])
      cases hfc : findCategory s.db n with
      | some c =>
        rw [processCategory_found s r n c hn h0 hfc]
        intro q hq
        rcases dinsert_mem s.category_map n c.id q hq with rfl | hq2
        · exact ⟨c, (findCategory_some s.db n c hfc).1, rfl⟩
        · exact h q hq2
      | none =>
        rw [processCategory_create s r n hn h0 hfc]
        intro q hq
        rcases dinsert_mem s.category_map n s.db.nextCatId q hq with rfl | hq2
        · exact ⟨⟨s.db.nextCatId, n⟩, List.mem_append.2 (Or.inr (by simp)), rfl⟩
        · rcases h q hq2 with ⟨c, hcm, hcid⟩
          exact ⟨c, List.mem_append.2 (Or.inl hcm), hcid⟩

theorem processCategory_refint (s : CatLoadState) (r : CatRecord)
    (h : RefInt s.db) : RefInt (processCategory s r).db := by
  intro p hp
  have hshape := processCategory_db_shape s r
  rw [hshape.1] at hp
  rcases h p hp with ⟨c, hcm, hcid⟩
  exact ⟨c, hshape.2.2 c hcm, hcid⟩

theorem catFold_mapref_refint (recs : List CatRecord) :
    ∀ s : CatLoadState, MapRef s.category_map s.db → RefInt s.db →
      MapRef (recs.foldl processCategory s).category_map
          (recs.foldl processCategory s).db ∧
        RefInt (recs.foldl processCategory s).db := by
  induction recs with
  | nil => exact fun _ hm hr => ⟨hm, hr⟩
  | cons a t ih =>
    intro s hm hr
    exact ih (processCategory s a) (processCategory_mapref s a hm)
      (processCategory_refint s a hr)

theorem processProduct_mapref (m mm : List (String × Nat)) (s : ProdLoadState)
    (r : ProdRecord) (hm : MapRef mm s.db) :
    MapRef mm (processProduct m s r).db := by
  unfold MapRef
  rw [(processProduct_db_shape m s r).1]
  exact hm

theorem processProduct_refint (m : List (String × Nat)) (s : ProdLoadState)
    (r : ProdRecord) (hm : MapRef m s.db) (h : RefInt s.db) :
    RefInt (processProduct m s r).db := by
  cases hk : hasKey m r.category with
  | false =>
    rw [processProduct_skip_missing m s r hk]
    exact h
  | true =>
    cases hp : findProduct s.db r.name with
    | some q =>
      rw [processProduct_skip_existing m s r q hk hp]
      exact h
    | none =>
      rw [processProduct_insert m s r hk hp]
      intro p hp2
      rcases List.mem_append.1 hp2 with hp2 | hp2
      · exact h p hp2
      · simp only [List.mem_singleton] at hp2
        subst hp2
        cases hc : r.category with
        | none => rw [hc] at hk; exact absurd hk (by simp [hasKey])
        | some cname =>
          rw [hc] at hk
          rcases dget_mem m cname hk with ⟨q, hqm, hdget⟩
          rcases hm q hqm with ⟨c, hcm, hcid⟩
          refine ⟨c, hcm, ?_⟩
          show c.id = dget m (some cname)
          rw [hdget, hcid]

theorem prodFold_refint (m : List (String × Nat)) (recs : List ProdRecord) :
    ∀ s : ProdLoadState, MapRef m s.db → RefInt s.db →
      RefInt (recs.foldl (processProduct m) s).db := by
  induction recs with
  | nil => exact fun _ _ hr => hr
  | cons a t ih =>
    intro s hm hr
    exact ih (processProduct m s a) (processProduct_mapref m m s a hm)
      (processProduct_refint m s a hm hr)

/-! ### Shape of `loadPhase` and second-run lemmas -/

theorem loadPhase_of_empty_map (cf : Option (List CatRecord))
    (pf : Option (List ProdRecord)) (db : DB)
    (h : (load_categories db cf).category_map = []) :
    loadPhase cf pf db =
      { db := (load_categories db cf).db,
        category_map := (load_categories db cf).category_map,
        cat_new := (load_categories db cf).new_count,
        cat_existing := (load_categories db cf).existing_count,
        catFileError := (load_categories db cf).fileError,
        products_ran := false, prod_new := 0, prod_skipped := 0,
        warnings := [], prodFileError := false } := by
  unfold loadPhase
  simp [h]

theorem loadPhase_of_nonempty_map (cf : Option (List CatRecord))
    (pf : Option (List ProdRecord)) (db : DB)
    (h : (load_categories db cf).category_map ≠ []) :
    loadPhase cf pf db =
      { db := (load_products (load_categories db cf).db
                (load_categories db cf).category_map pf).db,
        category_map := (load_categories db cf).category_map,
        cat_new := (load_categories db cf).new_count,
        cat_existing := (load_categories db cf).existing_count,
        catFileError := (load_categories db cf).fileError,
        products_ran := true,
        prod_new := (load_products (load_categories db cf).db
                (load_categories db cf).category_map pf).new_count,
        prod_skipped := (load_products (load_categories db cf).db
                (load_categories db cf).category_map pf).skipped_count,
        warnings := (load_products (load_categories db cf).db
                (load_categories db cf).category_map pf).warnings,
        prodFileError := (load_products (load_categories db cf).db
                (load_categories db cf).category_map pf).fileError } := by
  unfold loadPhase
  simp [h]

theorem load_categories_some (db : DB) (recs : List CatRecord) :
    load_categories db (some recs) =
      { db := (recs.foldl processCategory ⟨db, [], 0, 0⟩).db,
        category_map := (recs.foldl processCategory ⟨db, [], 0, 0⟩).category_map,
        new_count := (recs.foldl processCategory ⟨db, [], 0, 0⟩).new_count,
        existing_count := (recs.foldl processCategory ⟨db, [], 0, 0⟩).existing_count,
        fileError := false } := rfl

theorem load_products_some (db : DB) (m : List (String × Nat))
    (recs : List ProdRecord) :
    load_products db m (some recs) =
      { db := (recs.foldl (processProduct m) ⟨db, 0, 0, []⟩).db,
        new_count := (recs.foldl (processProduct m) ⟨db, 0, 0, []⟩).new_count,
        skipped_count := (recs.foldl (processProduct m) ⟨db, 0, 0, []⟩).skipped_count,
        warnings := (recs.foldl (processProduct m) ⟨db, 0, 0, []⟩).warnings,
        fileError := false } := rfl

theorem load_products_db_categories (db : DB) (m : List (String × Nat))
    (pf : Option (List ProdRecord)) :
    (load_products db m pf).db.categories = db.categories := by
  cases pf with
  | none => rfl
  | some recs =>
    rw [load_products_some]
    exact (prodFold_categories m recs ⟨db, 0, 0, []⟩).1

theorem load_categories_second (db2 : DB) (crecs : List CatRecord)
    (h : ∀ r ∈ crecs, ∀ n, r.name = some n → n ≠ "" →
      ∃ c ∈ db2.categories, c.name = n) :
    (load_categories db2 (some crecs)).db = db2 ∧
      (load_categories db2 (some crecs)).new_count = 0 ∧
      (load_categories db2 (some crecs)).existing_count =
        (crecs.filter (fun r => !isBlank r.name)).length := by
  rw [load_categories_some]
  have hx := catFold_all_existing crecs ⟨db2, [], 0, 0⟩ h
  refine ⟨hx.1, hx.2.1, ?_⟩
  rw [hx.2.2]
  exact Nat.zero_add _

theorem catRun_keys (crecs : List CatRecord) (db : DB) (k : String) :
    HasKeyP (load_categories db (some crecs)).category_map k ↔
      ∃ r ∈ crecs, r.name = some k ∧ k ≠ "" := by
  rw [load_categories_some]
  show HasKeyP (crecs.foldl processCategory ⟨db, [], 0, 0⟩).category_map k ↔ _
  rw [catFold_keys crecs ⟨db, [], 0, 0⟩ k]
  constructor
  · rintro (⟨p, hp, _⟩ | h)
    · simp at hp
    · exact h
  · exact Or.inr

theorem catRun_map_ne_nil (crecs : List CatRecord) (db db2 : DB)
    (h : (load_categories db (some crecs)).category_map ≠ []) :
    (load_categories db2 (some crecs)).category_map ≠ [] := by
  intro hnil
  apply h
  apply map_eq_nil_of_no_keys
  intro k hk
  have hx := (catRun_keys crecs db k).1 hk
  have hk2 := (catRun_keys crecs db2 k).2 hx
  rw [hnil] at hk2
  rcases hk2 with ⟨p, hp, _⟩
  simp at hp

theorem catRun_names_present (crecs : List CatRecord) (db : DB) :
    ∀ r ∈ crecs, ∀ n, r.name = some n → n ≠ "" →
      ∃ c ∈ (load_categories db (some crecs)).db.categories, c.name = n := by
  intro r hr n hn h0
  rw [load_categories_some]
  exact catFold_name_present crecs ⟨db, [], 0, 0⟩ r hr n hn h0

theorem prodRun_names_present (m : List (String × Nat)) (precs : List ProdRecord)
    (db1 : DB) :
    ∀ r ∈ precs, hasKey m r.category = true →
      ∃ p ∈ (load_products db1 m (some precs)).db.products, p.name = r.name := by
  intro r hr hk
  rw [load_products_some]
  exact prodFold_name_present m precs ⟨db1, 0, 0, []⟩ r hr hk

theorem load_products_second (db2 : DB) (m : List (String × Nat))
    (precs : List ProdRecord)
    (h : ∀ r ∈ precs, hasKey m r.category = false ∨
      ∃ p ∈ db2.products, p.name = r.name) :
    (load_products db2 m (some precs)).db = db2 ∧
      (load_products db2 m (some precs)).new_count = 0 ∧
      (load_products db2 m (some precs)).skipped_count = precs.length := by
  rw [load_products_some]
  have hx := prodFold_all_skip m precs ⟨db2, 0, 0, []⟩ h
  refine ⟨hx.1, hx.2.1, ?_⟩
  rw [hx.2.2]
  exact Nat.zero_add _

theorem second_run_core (crecs : List CatRecord) (pf : Option (List ProdRecord))
    (db db1 : DB)
    (hcats : db1.categories = (load_categories db (some crecs)).db.categories)
    (hprods : ∀ precs, pf = some precs → ∀ r ∈ precs,
      hasKey (load_categories db (some crecs)).category_map r.category = true →
      ∃ p ∈ db1.products, p.name = r.name) :
    (load_categories db1 (some crecs)).db = db1 ∧
      (load_categories db1 (some crecs)).new_count = 0 ∧
      (load_categories db1 (some crecs)).existing_count =
        (crecs.filter (fun r => !isBlank r.name)).length ∧
      (load_products db1 (load_categories db1 (some crecs)).category_map pf).db = db1 ∧
      (load_products db1 (load_categories db1 (some crecs)).category_map pf).new_count
        = 0 ∧
      (∀ precs, pf = some precs →
        (load_products db1
          (load_categories db1 (some crecs)).category_map pf).skipped_count
          = precs.length) := by
  have hpres : ∀ r ∈ crecs, ∀ n, r.name = some n → n ≠ "" →
      ∃ c ∈ db1.categories, c.name = n := by
    intro r hr n hn h0
    rw [hcats]
    exact catRun_names_present crecs db r hr n hn h0
  have hsec := load_categories_second db1 crecs hpres
  have hkeys : ∀ c, hasKey (load_categories db1 (some crecs)).category_map c
      = hasKey (load_categories db (some crecs)).category_map c :=
    hasKey_congr _ _
      (fun k => (catRun_keys crecs db1 k).trans (catRun_keys crecs db k).symm)
  have hmain : (load_products db1
        (load_categories db1 (some crecs)).category_map pf).db = db1 ∧
      (load_products db1
        (load_categories db1 (some crecs)).category_map pf).new_count = 0 ∧
      (∀ precs, pf = some precs →
        (load_products db1
          (load_categories db1 (some crecs)).category_map pf).skipped_count
          = precs.length) := by
    cases pf with
    | none => exact ⟨rfl, rfl, fun precs h => Option.noConfusion h⟩
    | some precs =>
      have hcond : ∀ r ∈ precs,
          hasKey (load_categories db1 (some crecs)).category_map r.category = false ∨
          ∃ p ∈ db1.products, p.name = r.name := by
        intro r hr
        cases hk : hasKey (load_categories db (some crecs)).category_map r.category with
        | true => exact Or.inr (hprods precs rfl r hr hk)
        | false => exact Or.inl ((hkeys r.category).trans hk)
      have hx := load_products_second db1 _ precs hcond
      refine ⟨hx.1, hx.2.1, fun precs2 h2 => ?_⟩
      injection h2 with he
      subst he
      exact hx.2.2
  exact ⟨hsec.1, hsec.2.1, hsec.2.2, hmain.1, hmain.2.1, hmain.2.2⟩

theorem loadPhase_refint (cf : Option (List CatRecord))
    (pf : Option (List ProdRecord)) (db : DB) (h : RefInt db) :
    RefInt (loadPhase cf pf db).db := by
  have hcat : MapRef (load_categories db cf).category_map (load_categories db cf).db ∧
      RefInt (load_categories db cf).db := by
    cases cf with
    | none => exact ⟨fun q hq => absurd hq (List.not_mem_nil q), h⟩
    | some recs =>
      exact catFold_mapref_refint recs ⟨db, [], 0, 0⟩
        (fun q hq => absurd hq (List.not_mem_nil q)) h
  by_cases hmap : (load_categories db cf).category_map = []
  · rw [loadPhase_of_empty_map cf pf db hmap]
    exact hcat.2
  · rw [loadPhase_of_nonempty_map cf pf db hmap]
    cases pf with
    | none => exact hcat.2
    | some precs =>
      show RefInt (load_products (load_categories db cf).db
        (load_categories db cf).category_map (some precs)).db
      rw [load_products_some]
      exact prodFold_refint (load_categories db cf).category_map precs
        ⟨(load_categories db cf).db, 0, 0, []⟩ hcat.1 hcat.2

/-! ### Claim theorems -/

/-- C1 counterexample: loading the single product record
`{"name": "Dune", "price": 3, "category": "Books"}` — no "stock" key —
against a database holding category `Books` (id 1) stages a product whose
stock field is `none`, not 0: `load_products` passes the raw
`prod_data.get("stock")` to the `ProductModel` constructor and never applies
the schema default. -/
theorem c1_absent_stock_counterexample :
    (load_products ⟨[⟨1, "Books"⟩], [], 2, 1⟩ [("Books", 1)]
        (some [⟨some "Dune", some 3, none, some "Books"⟩])).db.products.map
        Product.stock = [none] ∧
    (none : Option ℤ) ≠ some 0 := by
  decide

/-- C1 (amended): for every staged product record (category resolves, name
not already present) whose "stock" key is absent, the Product constructed
and staged by `load_products` has its stock field equal to `none` (the raw
`get` result), not 0; the 0 default is enforced only by the `ProductSchema`
layer (`productSchemaStock`), which the loader does not invoke. -/
theorem c1_staged_stock_raw (m : List (String × Nat)) (s : ProdLoadState)
    (r : ProdRecord) (hk : hasKey m r.category = true)
    (hf : findProduct s.db r.name = none) (hs : r.stock = none) :
    (processProduct m s r).db.products =
      s.db.products ++
        [⟨s.db.nextProdId, r.name, r.price, none, dget m r.category⟩] ∧
    productSchemaStock r.stock = 0 := by
  constructor
  · rw [processProduct_insert m s r hk hf, hs]
  · rw [hs]
    rfl

/-- C1 witness: the amended theorem evaluated on the counterexample input. -/
theorem c1_staged_stock_raw_witness :
    (processProduct [("Books", 1)] ⟨⟨[⟨1, "Books"⟩], [], 2, 1⟩, 0, 0, []⟩
        ⟨some "Dune", some 3, none, some "Books"⟩).db.products
      = [⟨1, some "Dune", some 3, none, 1⟩] ∧
    productSchemaStock none = 0 := by
  have h := c1_staged_stock_raw [("Books", 1)]
    ⟨⟨[⟨1, "Books"⟩], [], 2, 1⟩, 0, 0, []⟩
    ⟨some "Dune", some 3, none, some "Books"⟩ (by decide) (by decide) rfl
  exact ⟨h.1, h.2⟩

/-- C3: a run of `main` preserves referential integrity: if every product of
the initial database references a stored category, then every product
present after the run references a category present after the run. -/
theorem c3_referential_integrity (connOk : Bool) (cf : Option (List CatRecord))
    (pf : Option (List ProdRecord)) (db : DB) (h : RefInt db) :
    RefInt (main connOk cf pf db).db := by
  cases connOk with
  | false => exact h
  | true => exact loadPhase_refint cf pf db h

/-- C3 witness: integrity of the concrete database produced by a full run
seeding one category and one product into an empty database. -/
theorem c3_referential_integrity_witness :
    RefInt ⟨[], [], 1, 1⟩ ∧
      RefInt (main true (some [⟨some "Books"⟩])
        (some [⟨some "Dune", some 3, some 10, some "Books"⟩]) ⟨[], [], 1, 1⟩).db :=
  ⟨by decide, c3_referential_integrity true (some [⟨some "Books"⟩])
    (some [⟨some "Dune", some 3, some 10, some "Books"⟩]) ⟨[], [], 1, 1⟩ (by decide)⟩

/-- C4: a product record whose name matches a product already stored is
skipped: the product table (and the whole database) is left unchanged, the
"skipped" counter is incremented and the "new" counter is not — whether the
record's category resolves (name-match skip) or not (missing-category skip),
and regardless of any differing price or stock in the input. -/
theorem c4_existing_name_skips (m : List (String × Nat)) (s : ProdLoadState)
    (r : ProdRecord) (h : ∃ p ∈ s.db.products, p.name = r.name) :
    (processProduct m s r).db = s.db ∧
      (processProduct m s r).skipped_count = s.skipped_count + 1 ∧
      (processProduct m s r).new_count = s.new_count := by
  cases hk : hasKey m r.category with
  | false =>
    have hstep := processProduct_skip_missing m s r hk
    exact ⟨by rw [hstep], by rw [hstep], by rw [hstep]⟩
  | true =>
    have hsome := (findProduct_isSome_iff s.db r.name).2 h
    cases hp : findProduct s.db r.name with
    | none => rw [hp] at hsome; simp at hsome
    | some q =>
      have hstep := processProduct_skip_existing m s r q hk hp
      exact ⟨by rw [hstep], by rw [hstep], by rw [hstep]⟩

/-- C4 witness: a record named `Dune` with different price and stock than
the stored `Dune` leaves the database unchanged and counts one skip. -/
theorem c4_existing_name_skips_witness :
    (processProduct [("Books", 1)]
        ⟨⟨[⟨1, "Books"⟩], [⟨1, some "Dune", some 3, some 1, 1⟩], 2, 2⟩, 0, 0, []⟩
        ⟨some "Dune", some 7, some 9, some "Books"⟩).db
      = ⟨[⟨1, "Books"⟩], [⟨1, some "Dune", some 3, some 1, 1⟩], 2, 2⟩ ∧
    (processProduct [("Books", 1)]
        ⟨⟨[⟨1, "Books"⟩], [⟨1, some "Dune", some 3, some 1, 1⟩], 2, 2⟩, 0, 0, []⟩
        ⟨some "Dune", some 7, some 9, some "Books"⟩).skipped_count = 1 ∧
    (processProduct [("Books", 1)]
        ⟨⟨[⟨1, "Books"⟩], [⟨1, some "Dune", some 3, some 1, 1⟩], 2, 2⟩, 0, 0, []⟩
        ⟨some "Dune", some 7, some 9, some "Books"⟩).new_count = 0 := by
  have h := c4_existing_name_skips [("Books", 1)]
    ⟨⟨[⟨1, "Books"⟩], [⟨1, some "Dune", some 3, some 1, 1⟩], 2, 2⟩, 0, 0, []⟩
    ⟨some "Dune", some 7, some 9, some "Books"⟩ (by decide)
  exact ⟨h.1, h.2.1, h.2.2⟩

/-- C5: one `load_categories` loop iteration: a record without a non-empty
name leaves the state untouched (no counter, no map entry, no database
change); a fresh name creates the category with the flushed identifier
`nextCatId` (available before commit), increments "new" and maps the name to
that identifier; a present name increments "existing" and maps the name to
the found category's identifier; and the mapping is last-write-wins: after
`dinsert` the name looks up to the newest identifier. -/
theorem c5_load_categories_record (s : CatLoadState) (r : CatRecord) :
    (isBlank r.name = true → processCategory s r = s) ∧
    (∀ n, r.name = some n → n ≠ "" →
      (findCategory s.db n = none →
        processCategory s r =
          { db := { s.db with categories := s.db.categories ++ [⟨s.db.nextCatId, n⟩],
                              nextCatId := s.db.nextCatId + 1 },
            category_map := dinsert s.category_map n s.db.nextCatId,
            new_count := s.new_count + 1,
            existing_count := s.existing_count }) ∧
      (∀ c, findCategory s.db n = some c →
        processCategory s r =
          { s with existing_count := s.existing_count + 1,
                   category_map := dinsert s.category_map n c.id })) ∧
    (∀ (m : List (String × Nat)) (n : String) (v : Nat),
      dlookup (dinsert m n v) n = some v) := by
  refine ⟨processCategory_blank s r, ?_, fun m n v => dlookup_dinsert m n v⟩
  intro n hn h0
  exact ⟨processCategory_create s r n hn h0, fun c => processCategory_found s r n c hn h0⟩

/-- C5 witness: the three branches and the overwrite evaluated concretely:
a nameless record is a no-op, `Books` is created with id 5 into an empty
database, `Books` is found (id 1) in a database that has it, and inserting
`Books → 2` over `Books → 1` looks up to 2. -/
theorem c5_load_categories_record_witness :
    processCategory ⟨⟨[], [], 5, 1⟩, [], 0, 0⟩ ⟨none⟩ = ⟨⟨[], [], 5, 1⟩, [], 0, 0⟩ ∧
    processCategory ⟨⟨[], [], 5, 1⟩, [], 0, 0⟩ ⟨some "Books"⟩
      = ⟨⟨[⟨5, "Books"⟩], [], 6, 1⟩, [("Books", 5)], 1, 0⟩ ∧
    processCategory ⟨⟨[⟨1, "Books"⟩], [], 2, 1⟩, [], 0, 0⟩ ⟨some "Books"⟩
      = ⟨⟨[⟨1, "Books"⟩], [], 2, 1⟩, [("Books", 1)], 0, 1⟩ ∧
    dlookup (dinsert [("Books", 1)] "Books" 2) "Books" = some 2 := by
  refine ⟨(c5_load_categories_record ⟨⟨[], [], 5, 1⟩, [], 0, 0⟩ ⟨none⟩).1 rfl,
    ((c5_load_categories_record ⟨⟨[], [], 5, 1⟩, [], 0, 0⟩ ⟨some "Books"⟩).2.1
      "Books" rfl (by decide)).1 (by decide),
    ((c5_load_categories_record ⟨⟨[⟨1, "Books"⟩], [], 2, 1⟩, [], 0, 0⟩
        ⟨some "Books"⟩).2.1 "Books" rfl (by decide)).2 ⟨1, "Books"⟩ (by decide),
    (c5_load_categories_record ⟨⟨[], [], 5, 1⟩, [], 0, 0⟩ ⟨none⟩).2.2
      [("Books", 1)] "Books" 2⟩

/-- C2 counterexample: against a categories file holding the single record
`{}` (no "name" key), the second run increments no counter at all, so it is
not the case that every category record increments the "existing" counter
(there is 1 record but the second run's "existing" count is 0). -/
theorem c2_nameless_record_counterexample :
    ¬ ((loadPhase (some [⟨none⟩]) (some [])
        (loadPhase (some [⟨none⟩]) (some []) ⟨[], [], 1, 1⟩).db).cat_existing
      = [CatRecord.mk none].length) := by
  decide

/-- C2 (amended): running the full load twice against the same input files
leaves the database in the final state of the first run; on the second run
neither loader creates anything new, every category record carrying a
non-empty name increments the "existing" counter (a record without one
increments nothing, in either run), and, whenever the product loader runs on
a present products file, every product record increments "skipped". -/
theorem c2_run_twice_amended (cf : Option (List CatRecord))
    (pf : Option (List ProdRecord)) (db : DB) :
    (loadPhase cf pf (loadPhase cf pf db).db).db = (loadPhase cf pf db).db ∧
    (loadPhase cf pf (loadPhase cf pf db).db).cat_new = 0 ∧
    (loadPhase cf pf (loadPhase cf pf db).db).prod_new = 0 ∧
    (∀ crecs, cf = some crecs →
      (loadPhase cf pf (loadPhase cf pf db).db).cat_existing =
        (crecs.filter (fun r => !isBlank r.name)).length) ∧
    (∀ precs, pf = some precs →
      (loadPhase cf pf (loadPhase cf pf db).db).products_ran = true →
      (loadPhase cf pf (loadPhase cf pf db).db).prod_skipped = precs.length) := by
  cases cf with
  | none =>
    have h1 : loadPhase none pf db = ⟨db, [], 0, 0, true, false, 0, 0, [], false⟩ := rfl
    have h2 : (loadPhase none pf db).db = db := by rw [h1]
    rw [h2, h1]
    refine ⟨rfl, rfl, rfl, ?_, ?_⟩
    · intro crecs hc
      exact Option.noConfusion hc
    · intro precs hp hran
      exact Bool.noConfusion (show false = true from hran)
  | some crecs =>
    by_cases hmap : (load_categories db (some crecs)).category_map = []
    · have hblank : ∀ r ∈ crecs, isBlank r.name = true :=
        (catFold_map_nil_iff crecs db).1 hmap
      have hfold : crecs.foldl processCategory ⟨db, [], 0, 0⟩ = ⟨db, [], 0, 0⟩ :=
        catFold_all_blank crecs ⟨db, [], 0, 0⟩ hblank
      have h1 : loadPhase (some crecs) pf db
          = ⟨db, [], 0, 0, false, false, 0, 0, [], false⟩ := by
        rw [loadPhase_of_empty_map (some crecs) pf db hmap, load_categories_some, hfold]
      have h2 : (loadPhase (some crecs) pf db).db = db := by rw [h1]
      rw [h2, h1]
      refine ⟨rfl, rfl, rfl, ?_, ?_⟩
      · intro crecs2 hc
        injection hc with he
        subst he
        have hnil : crecs.filter (fun r => !isBlank r.name) = [] :=
          List.filter_eq_nil_iff.2 (fun a ha => by simp [hblank a ha])
        rw [hnil]
        rfl
      · intro precs hp hran
        exact Bool.noConfusion (show false = true from hran)
    · have hcore := second_run_core crecs pf db
        (load_products (load_categories db (some crecs)).db
          (load_categories db (some crecs)).category_map pf).db
        (load_products_db_categories (load_categories db (some crecs)).db
          (load_categories db (some crecs)).category_map pf)
        (by
          intro precs hpf r hr hk
          subst hpf
          exact prodRun_names_present (load_categories db (some crecs)).category_map
            precs (load_categories db (some crecs)).db r hr hk)
      have hmap2 := catRun_map_ne_nil crecs db
        (load_products (load_categories db (some crecs)).db
          (load_categories db (some crecs)).category_map pf).db hmap
      have hphase1 := loadPhase_of_nonempty_map (some crecs) pf db hmap
      have h1db : (loadPhase (some crecs) pf db).db
          = (load_products (load_categories db (some crecs)).db
              (load_categories db (some crecs)).category_map pf).db := by
        rw [hphase1]
      have hphase2 := loadPhase_of_nonempty_map (some crecs) pf
        (load_products (load_categories db (some crecs)).db
          (load_categories db (some crecs)).category_map pf).db hmap2
      rw [h1db, hphase2, hcore.1]
      refine ⟨hcore.2.2.2.1, hcore.2.1, hcore.2.2.2.2.1, ?_, ?_⟩
      · intro crecs2 hc
        injection hc with he
        subst he
        exact hcore.2.2.1
      · intro precs hpf hran
        exact hcore.2.2.2.2.2 precs hpf

/-- C2 witness: seeding one category and one product into an empty database
and re-running: the second run counts 1 existing category and 1 skipped
product. -/
theorem c2_run_twice_amended_witness :
    (loadPhase (some [⟨some "Books"⟩])
        (some [⟨some "Dune", some 3, some 10, some "Books"⟩])
        (loadPhase (some [⟨some "Books"⟩])
          (some [⟨some "Dune", some 3, some 10, some "Books"⟩])
          ⟨[], [], 1, 1⟩).db).cat_existing = 1 ∧
    (loadPhase (some [⟨some "Books"⟩])
        (some [⟨some "Dune", some 3, some 10, some "Books"⟩])
        (loadPhase (some [⟨some "Books"⟩])
          (some [⟨some "Dune", some 3, some 10, some "Books"⟩])
          ⟨[], [], 1, 1⟩).db).prod_skipped = 1 :=
  ⟨(c2_run_twice_amended (some [⟨some "Books"⟩])
      (some [⟨some "Dune", some 3, some 10, some "Books"⟩])
      ⟨[], [], 1, 1⟩).2.2.2.1 [⟨some "Books"⟩] rfl,
   (c2_run_twice_amended (some [⟨some "Books"⟩])
      (some [⟨some "Dune", some 3, some 10, some "Books"⟩])
      ⟨[], [], 1, 1⟩).2.2.2.2 [⟨some "Dune", some 3, some 10, some "Books"⟩]
      rfl (by decide)⟩

/-- C6: a product record whose "category" value is not a key of the category
map is never inserted: the database is untouched, the "skipped" counter is
incremented, and a warning carrying the missing category value and the
product name is logged. -/
theorem c6_missing_category_warns (m : List (String × Nat)) (s : ProdLoadState)
    (r : ProdRecord) (h : hasKey m r.category = false) :
    processProduct m s r =
      { s with skipped_count := s.skipped_count + 1,
               warnings := s.warnings ++ [⟨r.category, r.name⟩] } :=
  processProduct_skip_missing m s r h

/-- C6 witness: a record naming category `Toys` against a map holding only
`Books` is skipped with the warning `(Toys, Dune)` and nothing staged. -/
theorem c6_missing_category_warns_witness :
    processProduct [("Books", 1)] ⟨⟨[⟨1, "Books"⟩], [], 2, 1⟩, 0, 0, []⟩
        ⟨some "Dune", some 3, some 10, some "Toys"⟩
      = ⟨⟨[⟨1, "Books"⟩], [], 2, 1⟩, 0, 1, [⟨some "Toys", some "Dune"⟩]⟩ :=
  c6_missing_category_warns [("Books", 1)] ⟨⟨[⟨1, "Books"⟩], [], 2, 1⟩, 0, 0, []⟩
    ⟨some "Dune", some 3, some 10, some "Toys"⟩ (by decide)

/-- C7: missing input files: `load_categories` on an absent categories file
logs the error and returns the empty mapping with the database untouched;
`main` then records that the product loader never ran and leaves the
database unchanged; `load_products` on an absent products file logs the
error and returns with the database untouched. -/
theorem c7_missing_files (db : DB) (m : List (String × Nat))
    (pf : Option (List ProdRecord)) :
    load_categories db none = ⟨db, [], 0, 0, true⟩ ∧
    (main true none pf db).phase = some (loadPhase none pf db) ∧
    (loadPhase none pf db).products_ran = false ∧
    (loadPhase none pf db).db = db ∧
    load_products db m none = ⟨db, 0, 0, [], true⟩ :=
  ⟨rfl, rfl, rfl, rfl, rfl⟩

/-- C8: exception handling in `main`: whenever the loading phase raises,
`main` logs the exception, rolls the session back, closes it, reaches the
final "completed" log line and terminates normally (exit code 0); and on
every exit path of the loading phase, raising or not, the session is closed
and the "completed" line is reached. -/
theorem c8_exception_swallowed (run : DB → PhaseResult) (db d : DB) :
    (run db = PhaseResult.raised d →
      mainWith true run db = ⟨0, d, true, true, true, true, none⟩) ∧
    (mainWith true run db).closed = true ∧
    (mainWith true run db).completedLogged = true := by
  cases hr : run db with
  | ok o =>
    have hm : mainWith true run db = ⟨0, o.db, false, false, true, true, some o⟩ := by
      unfold mainWith
      rw [if_neg (by simp), hr]
    refine ⟨?_, by rw [hm], by rw [hm]⟩
    intro h
    exact PhaseResult.noConfusion h
  | raised d2 =>
    have hm : mainWith true run db = ⟨0, d2, true, true, true, true, none⟩ := by
      unfold mainWith
      rw [if_neg (by simp), hr]
    refine ⟨?_, by rw [hm], by rw [hm]⟩
    intro h
    injection h with he
    rw [hm, he]

/-- C8 witness: a phase that raises over an empty database is logged, rolled
back, closed, and `main` still reaches the completed line with exit 0. -/
theorem c8_exception_swallowed_witness :
    mainWith true (fun _ => PhaseResult.raised ⟨[], [], 1, 1⟩) ⟨[], [], 1, 1⟩
      = ⟨0, ⟨[], [], 1, 1⟩, true, true, true, true, none⟩ ∧
    (mainWith true (fun _ => PhaseResult.raised ⟨[], [], 1, 1⟩) ⟨[], [], 1, 1⟩).closed
      = true :=
  ⟨(c8_exception_swallowed (fun _ => PhaseResult.raised ⟨[], [], 1, 1⟩)
      ⟨[], [], 1, 1⟩ ⟨[], [], 1, 1⟩).1 rfl,
   (c8_exception_swallowed (fun _ => PhaseResult.raised ⟨[], [], 1, 1⟩)
      ⟨[], [], 1, 1⟩ ⟨[], [], 1, 1⟩).2.1⟩

/-- C9: the process exit code is 1 exactly when the connectivity check
fails, and 0 in every other case — including runs whose loading phase raised
an exception (arbitrary `run`) and runs that skipped records; the concrete
`main` agrees. -/
theorem c9_exit_code (connOk : Bool) (run : DB → PhaseResult)
    (cf : Option (List CatRecord)) (pf : Option (List ProdRecord)) (db : DB) :
    ((mainWith connOk run db).exitCode = 1 ↔ connOk = false) ∧
    ((mainWith connOk run db).exitCode = 0 ↔ connOk = true) ∧
    (main connOk cf pf db).exitCode = (if connOk = true then 0 else 1) := by
  cases connOk with
  | false =>
    refine ⟨⟨fun _ => rfl, fun _ => rfl⟩, ?_, rfl⟩
    constructor
    · intro h
      exact absurd (show (1 : Nat) = 0 from h) (by decide)
    · intro h
      exact Bool.noConfusion h
  | true =>
    have hz : (mainWith true run db).exitCode = 0 := by
      unfold mainWith
      rw [if_neg (by simp)]
      cases run db <;> rfl
    refine ⟨?_, ?_, rfl⟩
    · rw [hz]
      exact ⟨fun h => absurd h (by decide), fun h => Bool.noConfusion h⟩
    · rw [hz]
      exact ⟨fun _ => rfl, fun _ => rfl⟩

/-- C10: a product record with no "category" key (or a null value) behaves
exactly like one naming an unknown category: `prod_data.get("category")` is
`None`, which is never a key of the string-keyed map, so the record is
skipped with a warning naming the `None` category and the product name, and
no product is staged. -/
theorem c10_null_category_skips (m : List (String × Nat)) (s : ProdLoadState)
    (r : ProdRecord) (h : r.category = none) :
    processProduct m s r =
      { s with skipped_count := s.skipped_count + 1,
               warnings := s.warnings ++ [⟨none, r.name⟩] } := by
  have hk : hasKey m r.category = false := by
    rw [h]
    rfl
  rw [processProduct_skip_missing m s r hk, h]

/-- C10 witness: a record with no category key is skipped with the warning
`(None, Ghost)` even though the map is non-empty, and nothing is staged. -/
theorem c10_null_category_skips_witness :
    processProduct [("Books", 1)] ⟨⟨[⟨1, "Books"⟩], [], 2, 1⟩, 0, 0, []⟩
        ⟨some "Ghost", some 3, some 10, none⟩
      = ⟨⟨[⟨1, "Books"⟩], [], 2, 1⟩, 0, 1, [⟨none, some "Ghost"⟩]⟩ :=
  c10_null_category_skips [("Books", 1)] ⟨⟨[⟨1, "Books"⟩], [], 2, 1⟩, 0, 0, []⟩
    ⟨some "Ghost", some 3, some 10, none⟩ rfl

end LoadData
